import Mathlib

/-!
Verification of the grid-calibration core of `ComprehensiveDeltaStrategy.cpp`
(Smoothieware comprehensive delta calibration strategy).

The source is embedded shallowly over exact rationals: C `float` arithmetic
becomes `ℚ`, fixed-size C arrays become functions out of `ℕ` guarded by
explicit bounds checks, and the one fallible hot-path routine
(`get_adjust_z`, whose C code can index past the end of the depth array)
returns `Option ℚ`, with `none` modelling an out-of-bounds read.

`DM_GRID_DIMENSION` (the side of the square probing grid) is defined in the
strategy's header file, which is not among the sources at hand; following
the specification ("a fixed square grid of side N (N is odd, e.g. 5 or 7)")
every definition is parametrised by the dimension `dim`, and concrete
evaluations use `dim = 5`.  `distance2D` is likewise declared only in the
header; modelled from the spec as the Euclidean distance, and embedded via
squared distances (`dist2`) so everything stays inside `ℚ`; every comparison
the code performs on distances is between non-negative quantities, where
comparing squares is equivalent to comparing the distances themselves.
-/

namespace CDS

/-- Classification tag of a grid test point (`TP_INACTIVE`, `TP_ACTIVE`,
`TP_ACTIVE_NEIGHBOR`, `TP_CENTER` in the source). -/
inductive Tag where
  | inactive : Tag
  | active : Tag
  | activeNeighbor : Tag
  | center : Tag
deriving DecidableEq

/-- Squared Euclidean distance between two points.  The source's
`distance2D` (declared in the header; modelled from the spec as the
Euclidean distance) is the square root of this; every comparison the code
makes on distances is reflected here on the squares. -/
def dist2 (p q : ℚ × ℚ) : ℚ := (p.1 - q.1) ^ 2 + (p.2 - q.2) ^ 2

/-- Grid spacing: `point_spacing = (probe_radius * 2) / (DM_GRID_DIMENSION - 1)`
(`init_test_points`). -/
def point_spacing (dim : ℕ) (R : ℚ) : ℚ := (R * 2) / ((dim : ℚ) - 1)

/-- X coordinate of the test point in column `c`: the loop
`for(x = -probe_radius; x <= probe_radius; x += point_spacing)` visits
`-R + c * spacing` on its `c`-th pass. -/
def test_point_x (dim : ℕ) (R : ℚ) (c : ℕ) : ℚ := -R + c * point_spacing dim R

/-- Y coordinate of the test point in row `r`: the loop
`for(y = probe_radius; y >= -probe_radius; y -= point_spacing)` visits
`R - r * spacing` on its `r`-th pass. -/
def test_point_y (dim : ℕ) (R : ℚ) (r : ℕ) : ℚ := R - r * point_spacing dim R

/-- `test_point[i]`, for `i` in row-major order (`dm_pos = y*DIM + x`). -/
def test_point (dim : ℕ) (R : ℚ) (i : ℕ) : ℚ × ℚ :=
  (test_point_x dim R (i % dim), test_point_y dim R (i / dim))

/-- `neighboring_probe_radius = probe_radius + (probe_radius / ((DM_GRID_DIMENSION - 1) / 2))`;
`(DM_GRID_DIMENSION - 1) / 2` is C integer division, kept as `ℕ` division. -/
def neighboring_probe_radius (dim : ℕ) (R : ℚ) : ℚ :=
  R + R / (((dim - 1) / 2 : ℕ) : ℚ)

/-- Classification of grid point `i` for the circular print-surface shape,
before the origin point is re-tagged (`init_test_points`, `case PSS_CIRCLE`).
The neighbour branch requires the row index to differ from `0`, from
`DM_GRID_DIMENSION - 1` and from `-(DM_GRID_DIMENSION - 1)` (that last
comparison is against a negative constant, hence over `ℤ`); the column
index is never tested. -/
def classify (dim : ℕ) (R : ℚ) (i : ℕ) : Tag :=
  if dist2 ((0 : ℚ), (0 : ℚ)) (test_point dim R i) ≤ R ^ 2 then
    Tag.active
  else if dist2 ((0 : ℚ), (0 : ℚ)) (test_point dim R i) ≤ (neighboring_probe_radius dim R) ^ 2
      ∧ i / dim ≠ 0
      ∧ i / dim ≠ dim - 1
      ∧ ((i / dim : ℕ) : ℤ) ≠ -((dim : ℤ) - 1) then
    Tag.activeNeighbor
  else
    Tag.inactive

/-- One step of the linear scan in `find_nearest_test_point`: the running
state is `(lowest², lowest_idx)`; a point only competes when its tag is
`TP_ACTIVE` or `TP_CENTER` and its distance beats the running lowest
(`d i` is the squared distance from the query to `test_point[i]`). -/
def fntp_step (tags : ℕ → Tag) (d : ℕ → ℚ) (s : ℚ × ℕ) (i : ℕ) : ℚ × ℕ :=
  if (tags i = Tag.active ∨ tags i = Tag.center) ∧ d i < s.1 then (d i, i) else s

/-- `find_nearest_test_point(pos)`: linear scan over all `DM_GRID_ELEMENTS`
points, starting from `lowest = 999` (squared: `998001`) and
`lowest_idx = 0`. -/
def find_nearest_test_point (dim : ℕ) (tags : ℕ → Tag) (pt : ℕ → ℚ × ℚ)
    (pos : ℚ × ℚ) : ℕ :=
  (List.foldl (fntp_step tags fun i => dist2 pos (pt i)) (998001, 0)
    (List.range (dim * dim))).2

/-- Index of the exact middle grid point (the point at the origin when the
grid side is odd). -/
def center_idx (dim : ℕ) : ℕ := ((dim - 1) / 2) * dim + (dim - 1) / 2

/-- Final classification after `init_test_points`: the point
`find_nearest_test_point(origin)` (scanned against the freshly computed
tags) is overwritten with `TP_CENTER`. -/
def active_point (dim : ℕ) (R : ℚ) (i : ℕ) : Tag :=
  if i = find_nearest_test_point dim (classify dim R) (test_point dim R) (0, 0) then
    Tag.center
  else
    classify dim R i

/-! ### Generic facts about the nearest-point scan -/

lemma fntp_foldl_fst_le (tags : ℕ → Tag) (d : ℕ → ℚ) :
    ∀ (L : List ℕ) (s : ℚ × ℕ), (List.foldl (fntp_step tags d) s L).1 ≤ s.1 := by
  intro L
  induction L with
  | nil => intro s; exact le_refl _
  | cons i L ih =>
      intro s
      rw [List.foldl_cons]
      refine le_trans (ih _) ?_
      unfold fntp_step
      split
      · next h => exact le_of_lt h.2
      · exact le_refl _

lemma fntp_foldl_le_of_mem (tags : ℕ → Tag) (d : ℕ → ℚ) :
    ∀ (L : List ℕ) (s : ℚ × ℕ) (j : ℕ), j ∈ L →
      (tags j = Tag.active ∨ tags j = Tag.center) →
      (List.foldl (fntp_step tags d) s L).1 ≤ d j := by
  intro L
  induction L with
  | nil => intro s j hj; exact absurd hj (List.not_mem_nil j)
  | cons i L ih =>
      intro s j hj hgood
      rw [List.foldl_cons]
      rcases List.mem_cons.mp hj with h | h
      · subst h
        refine le_trans (fntp_foldl_fst_le tags d L _) ?_
        unfold fntp_step
        split
        · exact le_refl _
        · next hc =>
            have : ¬ d j < s.1 := fun hlt => hc ⟨hgood, hlt⟩
            exact le_of_not_lt this
      · exact ih _ j h hgood

lemma fntp_foldl_provenance (tags : ℕ → Tag) (d : ℕ → ℚ) :
    ∀ (L : List ℕ) (s : ℚ × ℕ),
      List.foldl (fntp_step tags d) s L = s ∨
      ((tags (List.foldl (fntp_step tags d) s L).2 = Tag.active ∨
        tags (List.foldl (fntp_step tags d) s L).2 = Tag.center) ∧
       d (List.foldl (fntp_step tags d) s L).2 = (List.foldl (fntp_step tags d) s L).1 ∧
       (List.foldl (fntp_step tags d) s L).2 ∈ L) := by
  intro L
  induction L with
  | nil => intro s; exact Or.inl rfl
  | cons i L ih =>
      intro s
      rw [List.foldl_cons]
      rcases ih (fntp_step tags d s i) with h | h
      · rw [h]
        unfold fntp_step
        split
        · next hc =>
            exact Or.inr ⟨hc.1, rfl, List.mem_cons_self i L⟩
        · exact Or.inl rfl
      · exact Or.inr ⟨h.1, h.2.1, List.mem_cons_of_mem i h.2.2⟩

lemma fntp_foldl_of_far (tags : ℕ → Tag) (d : ℕ → ℚ) :
    ∀ (L : List ℕ) (s : ℚ × ℕ),
      (∀ i ∈ L, ¬((tags i = Tag.active ∨ tags i = Tag.center) ∧ d i < s.1)) →
      List.foldl (fntp_step tags d) s L = s := by
  intro L
  induction L with
  | nil => intro s _; rfl
  | cons i L ih =>
      intro s h
      rw [List.foldl_cons]
      have hstep : fntp_step tags d s i = s := by
        unfold fntp_step
        exact if_neg (h i (List.mem_cons_self i L))
      rw [hstep]
      exact ih s fun j hj => h j (List.mem_cons_of_mem i hj)

/-- Core property of the scan: as soon as one Active-or-Center point lies
strictly within the initial `lowest = 999` of the query, the scan returns a
valid index that is tagged Active or Center and whose squared distance to
the query is minimal among all Active-or-Center points. -/
lemma fntp_spec (dim : ℕ) (tags : ℕ → Tag) (pt : ℕ → ℚ × ℚ) (pos : ℚ × ℚ) (j : ℕ)
    (hj : j < dim * dim) (hgood : tags j = Tag.active ∨ tags j = Tag.center)
    (hnear : dist2 pos (pt j) < 998001) :
    (tags (find_nearest_test_point dim tags pt pos) = Tag.active ∨
      tags (find_nearest_test_point dim tags pt pos) = Tag.center) ∧
    find_nearest_test_point dim tags pt pos < dim * dim ∧
    ∀ k, k < dim * dim → (tags k = Tag.active ∨ tags k = Tag.center) →
      dist2 pos (pt (find_nearest_test_point dim tags pt pos)) ≤ dist2 pos (pt k) := by
  have hle := fntp_foldl_le_of_mem tags (fun i => dist2 pos (pt i)) (List.range (dim * dim))
    (998001, 0) j (List.mem_range.mpr hj) hgood
  rcases fntp_foldl_provenance tags (fun i => dist2 pos (pt i)) (List.range (dim * dim))
      (998001, 0) with h | h
  · exfalso
    rw [h] at hle
    exact absurd (lt_of_le_of_lt hle hnear) (lt_irrefl _)
  · obtain ⟨hg, hd, hmem⟩ := h
    unfold find_nearest_test_point
    refine ⟨hg, List.mem_range.mp hmem, ?_⟩
    intro k hk hgk
    have hlek := fntp_foldl_le_of_mem tags (fun i => dist2 pos (pt i)) (List.range (dim * dim))
      (998001, 0) k (List.mem_range.mpr hk) hgk
    calc dist2 pos (pt (List.foldl (fntp_step tags fun i => dist2 pos (pt i)) (998001, 0)
            (List.range (dim * dim))).2)
        = (List.foldl (fntp_step tags fun i => dist2 pos (pt i)) (998001, 0)
            (List.range (dim * dim))).1 := hd
      _ ≤ dist2 pos (pt k) := hlek

/-! ### The centre point of an odd grid -/

lemma center_idx_mod (dim : ℕ) (h1 : 1 ≤ dim) : center_idx dim % dim = (dim - 1) / 2 := by
  have h2 : (dim - 1) / 2 < dim := by omega
  unfold center_idx
  rw [Nat.mul_comm ((dim - 1) / 2) dim, Nat.mul_add_mod]
  exact Nat.mod_eq_of_lt h2

lemma center_idx_div (dim : ℕ) (h1 : 1 ≤ dim) : center_idx dim / dim = (dim - 1) / 2 := by
  have h0 : 0 < dim := h1
  have h2 : (dim - 1) / 2 < dim := by omega
  unfold center_idx
  rw [Nat.mul_comm ((dim - 1) / 2) dim, Nat.mul_add_div h0, Nat.div_eq_of_lt h2]
  omega

lemma center_idx_lt (dim : ℕ) (h1 : 1 ≤ dim) : center_idx dim < dim * dim := by
  have h2 : (dim - 1) / 2 ≤ dim - 1 := Nat.div_le_self _ _
  unfold center_idx
  have := Nat.mul_le_mul_right dim h2
  nlinarith [Nat.sub_add_cancel h1]

lemma half_cast (dim : ℕ) (hodd : dim % 2 = 1) (h1 : 1 ≤ dim) :
    (((dim - 1) / 2 : ℕ) : ℚ) * 2 = (dim : ℚ) - 1 := by
  have hdvd : (dim - 1) / 2 * 2 = dim - 1 := by omega
  have hcast : (((dim - 1) / 2 * 2 : ℕ) : ℚ) = ((dim - 1 : ℕ) : ℚ) := by rw [hdvd]
  push_cast [Nat.cast_sub h1] at hcast
  exact hcast

lemma half_mul_spacing (dim : ℕ) (R : ℚ) (hodd : dim % 2 = 1) (h3 : 3 ≤ dim) :
    (((dim - 1) / 2 : ℕ) : ℚ) * (R * 2 / ((dim : ℚ) - 1)) = R := by
  have h1 : 1 ≤ dim := by omega
  have hd1 : (1 : ℚ) < (dim : ℚ) := by exact_mod_cast (by omega : 1 < dim)
  have hne : (dim : ℚ) - 1 ≠ 0 := by linarith
  have hhalf := half_cast dim hodd h1
  have hmul : (((dim - 1) / 2 : ℕ) : ℚ) * (R * 2) = R * ((dim : ℚ) - 1) := by
    linear_combination R * hhalf
  calc (((dim - 1) / 2 : ℕ) : ℚ) * (R * 2 / ((dim : ℚ) - 1))
      = (((dim - 1) / 2 : ℕ) : ℚ) * (R * 2) / ((dim : ℚ) - 1) := by ring
    _ = R * ((dim : ℚ) - 1) / ((dim : ℚ) - 1) := by rw [hmul]
    _ = R := mul_div_cancel_right₀ R hne

lemma test_point_center (dim : ℕ) (R : ℚ) (hodd : dim % 2 = 1) (h3 : 3 ≤ dim) :
    test_point dim R (center_idx dim) = (0, 0) := by
  have h1 : 1 ≤ dim := by omega
  unfold test_point test_point_x test_point_y point_spacing
  rw [center_idx_mod dim h1, center_idx_div dim h1, Prod.mk.injEq]
  constructor
  · rw [half_mul_spacing dim R hodd h3]; ring
  · rw [half_mul_spacing dim R hodd h3]; ring

lemma origin_unique (dim : ℕ) (R : ℚ) (hodd : dim % 2 = 1) (h3 : 3 ≤ dim) (hR : 0 < R)
    (i : ℕ) (_hi : i < dim * dim)
    (h : dist2 ((0 : ℚ), (0 : ℚ)) (test_point dim R i) = 0) : i = center_idx dim := by
  have h1 : 1 ≤ dim := by omega
  have hd1 : (1 : ℚ) < (dim : ℚ) := by exact_mod_cast (by omega : 1 < dim)
  have hne : (dim : ℚ) - 1 ≠ 0 := by linarith
  have hR' : R ≠ 0 := ne_of_gt hR
  have hhalf := half_cast dim hodd h1
  unfold dist2 test_point at h
  ring_nf at h
  have hx2 : test_point_x dim R (i % dim) ^ 2 = 0 := by
    nlinarith [sq_nonneg (test_point_x dim R (i % dim)),
      sq_nonneg (test_point_y dim R (i / dim))]
  have hy2 : test_point_y dim R (i / dim) ^ 2 = 0 := by
    nlinarith [sq_nonneg (test_point_x dim R (i % dim)),
      sq_nonneg (test_point_y dim R (i / dim))]
  have hx : test_point_x dim R (i % dim) = 0 := by
    exact (pow_eq_zero_iff two_ne_zero).mp hx2
  have hy : test_point_y dim R (i / dim) = 0 := by
    exact (pow_eq_zero_iff two_ne_zero).mp hy2
  unfold test_point_x point_spacing at hx
  unfold test_point_y point_spacing at hy
  have hcx : ((i % dim : ℕ) : ℚ) * (R * 2) = R * ((dim : ℚ) - 1) := by
    have h6 : ((i % dim : ℕ) : ℚ) * (R * 2 / ((dim : ℚ) - 1)) = R := by linarith
    calc ((i % dim : ℕ) : ℚ) * (R * 2)
        = (((i % dim : ℕ) : ℚ) * (R * 2 / ((dim : ℚ) - 1))) * ((dim : ℚ) - 1) := by
          field_simp
      _ = R * ((dim : ℚ) - 1) := by rw [h6]
  have hcy : ((i / dim : ℕ) : ℚ) * (R * 2) = R * ((dim : ℚ) - 1) := by
    have h6 : ((i / dim : ℕ) : ℚ) * (R * 2 / ((dim : ℚ) - 1)) = R := by linarith
    calc ((i / dim : ℕ) : ℚ) * (R * 2)
        = (((i / dim : ℕ) : ℚ) * (R * 2 / ((dim : ℚ) - 1))) * ((dim : ℚ) - 1) := by
          field_simp
      _ = R * ((dim : ℚ) - 1) := by rw [h6]
  have hc2 : ((i % dim : ℕ) : ℚ) * 2 = (dim : ℚ) - 1 := by
    apply mul_left_cancel₀ hR'
    linear_combination hcx
  have hr2 : ((i / dim : ℕ) : ℚ) * 2 = (dim : ℚ) - 1 := by
    apply mul_left_cancel₀ hR'
    linear_combination hcy
  have hmodq : ((i % dim : ℕ) : ℚ) = (((dim - 1) / 2 : ℕ) : ℚ) :=
    mul_right_cancel₀ (by norm_num : (2 : ℚ) ≠ 0) (hc2.trans hhalf.symm)
  have hdivq : ((i / dim : ℕ) : ℚ) = (((dim - 1) / 2 : ℕ) : ℚ) :=
    mul_right_cancel₀ (by norm_num : (2 : ℚ) ≠ 0) (hr2.trans hhalf.symm)
  have hmodn : i % dim = (dim - 1) / 2 := by exact_mod_cast hmodq
  have hdivn : i / dim = (dim - 1) / 2 := by exact_mod_cast hdivq
  have hsplit : i = dim * (i / dim) + i % dim := (Nat.div_add_mod i dim).symm
  rw [hsplit, hdivn, hmodn]
  unfold center_idx
  ring

lemma classify_center_active (dim : ℕ) (R : ℚ) (hodd : dim % 2 = 1) (h3 : 3 ≤ dim)
    (hR : 0 < R) : classify dim R (center_idx dim) = Tag.active := by
  unfold classify
  rw [test_point_center dim R hodd h3]
  have : dist2 ((0 : ℚ), (0 : ℚ)) ((0 : ℚ), (0 : ℚ)) = 0 := by norm_num [dist2]
  rw [this]
  rw [if_pos (by positivity)]

/-- The scan `find_nearest_test_point(origin)` run at initialisation returns
the exact middle point of the (odd-sided) grid. -/
lemma origin_scan (dim : ℕ) (R : ℚ) (hodd : dim % 2 = 1) (h3 : 3 ≤ dim) (hR : 0 < R) :
    find_nearest_test_point dim (classify dim R) (test_point dim R) (0, 0) =
      center_idx dim := by
  have h1 : 1 ≤ dim := by omega
  have hctr := test_point_center dim R hodd h3
  have hnear : dist2 ((0 : ℚ), (0 : ℚ)) (test_point dim R (center_idx dim)) < 998001 := by
    rw [hctr]; norm_num [dist2]
  obtain ⟨hg, hlt, hmin⟩ := fntp_spec dim (classify dim R) (test_point dim R) (0, 0)
    (center_idx dim) (center_idx_lt dim h1)
    (Or.inl (classify_center_active dim R hodd h3 hR)) hnear
  have hzero : dist2 ((0 : ℚ), (0 : ℚ))
      (test_point dim R (find_nearest_test_point dim (classify dim R) (test_point dim R)
        (0, 0))) = 0 := by
    have hle := hmin (center_idx dim) (center_idx_lt dim h1)
      (Or.inl (classify_center_active dim R hodd h3 hR))
    rw [hctr] at hle
    have h0 : dist2 ((0 : ℚ), (0 : ℚ)) ((0 : ℚ), (0 : ℚ)) = 0 := by norm_num [dist2]
    rw [h0] at hle
    have hge : 0 ≤ dist2 ((0 : ℚ), (0 : ℚ)) (test_point dim R
        (find_nearest_test_point dim (classify dim R) (test_point dim R) (0, 0))) := by
      unfold dist2; positivity
    linarith
  exact origin_unique dim R hodd h3 hR _ hlt hzero

/-- `active_point` in closed form, given the scan result. -/
lemma active_point_eq (dim : ℕ) (R : ℚ) (hodd : dim % 2 = 1) (h3 : 3 ≤ dim) (hR : 0 < R)
    (i : ℕ) :
    active_point dim R i =
      if i = center_idx dim then Tag.center else classify dim R i := by
  unfold active_point
  rw [origin_scan dim R hodd h3 hR]

/-! ### Surface correction model: `get_adjust_z` -/

/-- `clamp(n, lower, upper) = std::max(lower, std::min(n, upper))`. -/
def clampQ (n lower upper : ℚ) : ℚ := max lower (min n upper)

/-- State of the surface transform relevant to `get_adjust_z`:
enable flags, the tilt-plane normal and offset, and the depth array
(a total function here; `get_adjust_z` guards every access with an
explicit bounds check on `0 .. DM_GRID_ELEMENTS - 1`). -/
structure SurfTrans where
  plane_enabled : Bool
  depth_enabled : Bool
  active : Bool
  nx : ℚ
  ny : ℚ
  nz : ℚ
  d : ℚ
  depth : ℕ → ℚ

/-- `bili.array_x = (clamp(targetX) - -probe_radius) * bili.cartesian_to_array_scaler`,
with `cartesian_to_array_scaler = (DM_GRID_DIMENSION - 1) / (probe_radius * 2)`. -/
def array_x (dim : ℕ) (R targetX : ℚ) : ℚ :=
  (clampQ targetX (-R) R - -R) * (((dim : ℚ) - 1) / (R * 2))

/-- `bili.array_y = (-clamp(targetY) - -probe_radius) * bili.cartesian_to_array_scaler`
("Y inverted since it starts high and ends low"). -/
def array_y (dim : ℕ) (R targetY : ℚ) : ℚ :=
  (-clampQ targetY (-R) R - -R) * (((dim : ℚ) - 1) / (R * 2))

/-- The four depth-array indices `(st_Q11, st_Q12, st_Q21, st_Q22)` the
bilinear interpolation computes for a target, after clamping: with
`x1 = floor(array_x)`, `y1 = floor(array_y)`, `x2 = x1+1`, `y2 = y1+1`,
they are `y1*DIM + x1`, `y2*DIM + x1`, `y1*DIM + x2`, `y2*DIM + x2`. -/
def bili_idx (dim : ℕ) (R targetX targetY : ℚ) : ℤ × ℤ × ℤ × ℤ :=
  let x1 := ⌊array_x dim R targetX⌋
  let y1 := ⌊array_y dim R targetY⌋
  (y1 * dim + x1, (y1 + 1) * dim + x1, y1 * dim + (x1 + 1), (y1 + 1) * dim + (x1 + 1))

/-- `get_adjust_z(targetX, targetY)`.  Plane correction adds
`(-nx*x - ny*y - d) / nz` when enabled; depth correction clamps the target
to `[-R, R]`, maps it to fractional array coordinates with
`cartesian_to_array_scaler = (DM_GRID_DIMENSION - 1) / (probe_radius * 2)`,
and bilinearly interpolates the four corner depths of the surrounding cell.
The C code indexes `surface_transform.depth[]` directly; the embedding
returns `none` when any of the four computed indices falls outside
`0 .. DM_GRID_ELEMENTS - 1` (in C this is an out-of-bounds read). -/
def get_adjust_z (dim : ℕ) (R : ℚ) (st : SurfTrans) (targetX targetY : ℚ) : Option ℚ :=
  let plane_part : ℚ :=
    if st.plane_enabled && st.active then
      ((-st.nx * targetX) - st.ny * targetY - st.d) / st.nz
    else 0
  if st.depth_enabled && st.active then
    let ax := array_x dim R targetX
    let ay := array_y dim R targetY
    let x1 : ℤ := ⌊ax⌋
    let y1 : ℤ := ⌊ay⌋
    let x2 : ℤ := x1 + 1
    let y2 : ℤ := y1 + 1
    let stQ11 : ℤ := y1 * dim + x1
    let stQ12 : ℤ := y2 * dim + x1
    let stQ21 : ℤ := y1 * dim + x2
    let stQ22 : ℤ := y2 * dim + x2
    if 0 ≤ stQ11 ∧ stQ11 < dim * dim ∧ 0 ≤ stQ12 ∧ stQ12 < dim * dim ∧
        0 ≤ stQ21 ∧ stQ21 < dim * dim ∧ 0 ≤ stQ22 ∧ stQ22 < dim * dim then
      let q11 := st.depth stQ11.toNat
      let q12 := st.depth stQ12.toNat
      let q21 := st.depth stQ21.toNat
      let q22 := st.depth stQ22.toNat
      let divisor : ℚ := ((x2 : ℚ) - (x1 : ℚ)) * ((y2 : ℚ) - (y1 : ℚ))
      some (plane_part +
        (q11 / divisor * ((x2 : ℚ) - ax) * ((y2 : ℚ) - ay) +
         q21 / divisor * (ax - (x1 : ℚ)) * ((y2 : ℚ) - ay) +
         q12 / divisor * ((x2 : ℚ) - ax) * (ay - (y1 : ℚ)) +
         q22 / divisor * (ax - (x1 : ℚ)) * (ay - (y1 : ℚ))))
    else
      none
  else
    some plane_part

/-! ### Simulated annealing: directed binary search -/

/-- `find_optimal_config`: at most 250 iterations (the `fuel` argument,
started at 250); each iteration evaluates the energy at the range's current
`min` and `max`, stops once `max - min <= target`, otherwise narrows only
the bound whose energy is strictly worse by `binsearch_width` times the
current range; finally returns the midpoint `(min + max) / 2`.  The
energy evaluation (set parameter, re-simulate forward kinematics, score) is
abstracted into the pure function `f`. -/
def find_optimal_config (f : ℚ → ℚ) : ℕ → ℚ → ℚ → ℚ → ℚ → ℚ
  | 0, mn, mx, _, _ => (mn + mx) / 2
  | fuel + 1, mn, mx, w, t =>
    let energy_min := f mn
    let energy_max := f mx
    if mx - mn ≤ t then
      (mn + mx) / 2
    else
      let mx' := if energy_min < energy_max then mx - (mx - mn) * w else mx
      let mn' := if energy_min > energy_max then mn + (mx' - mn) * w else mn
      find_optimal_config f fuel mn' mx' w t

/-- A concrete unimodal energy landscape on `[0, 1]`: strictly decreasing
on `[0, 1/100]`, strictly increasing on `[1/100, 1]`, with its unique
minimum at `1/100`. -/
def vee (x : ℚ) : ℚ := if x ≤ 1 / 100 then 1 - 100 * x else (x - 1 / 100) * (50 / 99)

/-! ### Simulated annealing: tower-offset redistribution -/

/-- The scan `lowest = 999; for k: if(fabs(v[k]) < lowest) lowest = v[k];`
from the delta-radius group of `heuristic_calibration`.  Note that the
comparison uses the absolute value but the assignment stores the signed
value. -/
def lowest_scan (v : ℚ × ℚ × ℚ) : ℚ :=
  let l0 : ℚ := 999
  let l1 := if |v.1| < l0 then v.1 else l0
  let l2 := if |v.2.1| < l1 then v.2.1 else l1
  if |v.2.2| < l2 then v.2.2 else l2

/-- The redistribution step: the scanned value is subtracted from all three
per-tower radius offsets and added to the global delta radius. -/
def redistribute (v : ℚ × ℚ × ℚ) (delta_radius : ℚ) : (ℚ × ℚ × ℚ) × ℚ :=
  let l := lowest_scan v
  ((v.1 - l, v.2.1 - l, v.2.2 - l), delta_radius + l)

/-- What the specification describes: the offset with the smallest absolute
magnitude among the three (first one on ties). -/
def smallest_abs (v : ℚ × ℚ × ℚ) : ℚ :=
  let m := if |v.2.1| < |v.1| then v.2.1 else v.1
  if |v.2.2| < |m| then v.2.2 else m

/-- Redistribution as the specification words it: the smallest-magnitude
offset is subtracted from all three and added to the global parameter. -/
def spec_redistribute (v : ℚ × ℚ × ℚ) (delta_radius : ℚ) : (ℚ × ℚ × ℚ) × ℚ :=
  let l := smallest_abs v
  ((v.1 - l, v.2.1 - l, v.2.2 - l), delta_radius + l)

/-! ### Iterative calibration: trim handling -/

/-- The per-iteration trim sanity check of `iterative_calibration`: positive
components are first clamped to `0`; afterwards, if any component is below
`-5` the routine aborts (`return false`), modelled as `none`; otherwise the
(clamped) trim is used. -/
def trim_sanity (t : ℚ × ℚ × ℚ) : Option (ℚ × ℚ × ℚ) :=
  let x := if t.1 > 0 then 0 else t.1
  let y := if t.2.1 > 0 then 0 else t.2.1
  let z := if t.2.2 > 0 then 0 else t.2.2
  if x < -5 ∨ y < -5 ∨ z < -5 then none else some (x, y, z)

/-- `std::minmax({a, b, c}).second`. -/
def max3 (a b c : ℚ) : ℚ := max a (max b c)

/-- The endstop corrector's trim update (`iterative_calibration`):
each tower's trim gains `(min-of-the-four-depths - that tower's depth) *
trimscale`, and then the maximum of the three is subtracted from all three
("correct the downward creep issue by normalizing the trim offsets").
`depths = (center, towerX, towerY, towerZ)`.  The result is exactly what is
passed to `set_trim`. -/
def endstop_adjust (trim : ℚ × ℚ × ℚ) (depths : ℚ × ℚ × ℚ × ℚ) (trimscale : ℚ) :
    ℚ × ℚ × ℚ :=
  let mn := min depths.1 (min depths.2.1 (min depths.2.2.1 depths.2.2.2))
  let tx := trim.1 + (mn - depths.2.1) * trimscale
  let ty := trim.2.1 + (mn - depths.2.2.1) * trimscale
  let tz := trim.2.2 + (mn - depths.2.2.2) * trimscale
  let m := max3 tx ty tz
  (tx - m, ty - m, tz - m)

/-- The final trim renormalization at the end of `heuristic_calibration`:
`std::minmax({trim[X], trim[Y], trim[Z]}).second` is subtracted from all
three components before `set_trim` is called. -/
def normalize_trim (t : ℚ × ℚ × ℚ) : ℚ × ℚ × ℚ :=
  let m := max3 t.1 t.2.1 t.2.2
  (t.1 - m, t.2.1 - m, t.2.2 - m)

/-! ### The energy function -/

/-- `calc_energy(cartesian[][3])`: accumulate `fabs(z)` and a counter over
the points whose tag is exactly `TP_ACTIVE`, then return `mu / i`.
`n` is `DM_GRID_ELEMENTS`, `z i` is `cartesian[i][Z]` (the relative
height). -/
def calc_energy (n : ℕ) (tags : ℕ → Tag) (z : ℕ → ℚ) : ℚ :=
  let p := List.foldl
    (fun (s : ℚ × ℕ) i => if tags i = Tag.active then (s.1 + |z i|, s.2 + 1) else s)
    (0, 0) (List.range n)
  p.1 / (p.2 : ℚ)

/-! ### Loading the persisted depth map -/

/-- One line of the persisted depth-map file: either a `;`-prefixed comment
or a line holding one floating-point value. -/
inductive DMLine where
  | comment : DMLine
  | val : ℚ → DMLine

/-- The `while(fgets(...))` loop of the depth-map load in
`handle_shimming_and_depth_correction` (`M667 E`): comment lines are
skipped; a value line is examined only while fewer than
`DM_GRID_ELEMENTS` (`nE`) values have been accepted; a value in the open
interval `(-5, 5)` is stored and counted, any other value aborts the load
(`return false`), modelled as `none`.  Returns the depth array and the
count of accepted values. -/
def load_go (nE : ℕ) : List DMLine → (ℕ → ℚ) → ℕ → Option ((ℕ → ℚ) × ℕ)
  | [], depth, i => some (depth, i)
  | DMLine.comment :: rest, depth, i => load_go nE rest depth i
  | DMLine.val v :: rest, depth, i =>
    if i < nE then
      if -5 < v ∧ v < 5 then
        load_go nE rest (fun j => if j = i then v else depth j) (i + 1)
      else
        none
    else
      load_go nE rest depth i

/-- Result of the depth-map load path: the function's Boolean result, the
`have_depth_map` and `depth_enabled` flags, and the number of accepted
values.  On entry to this path `have_depth_map` is `false` (the path only
runs when no depth map is loaded) and the depth array has been zeroed by
`initDepthMapRAM`. -/
structure LoadResult where
  ok : Bool
  have_depth_map : Bool
  depth_enabled : Bool
  nloaded : ℕ
  depth : ℕ → ℚ

/-- The depth-map load for `M667 E` (no depth map loaded yet, probe offsets
zero, file present): run the line loop; an out-of-range value aborts with
failure and `depth_enabled = false`; otherwise, if the accepted count
differs from `DM_GRID_ELEMENTS` the map is rejected (`have_depth_map` and
`depth_enabled` forced `false`, the function still returns `true`);
otherwise `depth_enabled` is set from the command's `E` argument. -/
def load_depth_map (nE : ℕ) (eflag : Bool) (lines : List DMLine) : LoadResult :=
  match load_go nE lines (fun _ => 0) 0 with
  | none => ⟨false, false, false, 0, fun _ => 0⟩
  | some (depth, i) =>
    if i ≠ nE then
      ⟨true, false, false, i, depth⟩
    else
      ⟨true, false, eflag, i, depth⟩

/-! ### Claim C6: trim renormalization invariant -/

lemma max3_shift (a b c : ℚ) : max3 (a - max3 a b c) (b - max3 a b c) (c - max3 a b c) = 0 := by
  unfold max3
  rw [max_sub_sub_right b c (max a (max b c)), max_sub_sub_right a (max b c) (max a (max b c))]
  exact sub_self _

/-- C6: after any trim adjustment by either calibrator — the per-iteration
endstop correction of `iterative_calibration` and the final renormalization
of `heuristic_calibration` — the three trim values handed to `set_trim`
satisfy `max(trim[X], trim[Y], trim[Z]) = 0`. -/
theorem C6_trim_renormalized :
    (∀ (trim : ℚ × ℚ × ℚ) (depths : ℚ × ℚ × ℚ × ℚ) (trimscale : ℚ),
      max3 (endstop_adjust trim depths trimscale).1
        (endstop_adjust trim depths trimscale).2.1
        (endstop_adjust trim depths trimscale).2.2 = 0) ∧
    (∀ t : ℚ × ℚ × ℚ,
      max3 (normalize_trim t).1 (normalize_trim t).2.1 (normalize_trim t).2.2 = 0) := by
  constructor
  · intro trim depths trimscale
    unfold endstop_adjust
    exact max3_shift _ _ _
  · intro t
    unfold normalize_trim
    exact max3_shift _ _ _

/-! ### Claim C5: the trim sanity check -/

/-- C5 counterexample: the claim says a trim component outside `[-5, 0]`
aborts the calibration; but for trim `(1, -1, -1)` — whose first component
`1 > 0` is outside `[-5, 0]` — the code clamps the component to `0` and
continues (no abort): `trim_sanity` returns `some`, not `none`. -/
theorem C5_counterexample :
    (1 : ℚ) > 0 ∧ trim_sanity (1, -1, -1) = some (0, -1, -1) := by
  constructor
  · norm_num
  · unfold trim_sanity
    norm_num

lemma clamp_pos_eq_min (a : ℚ) : (if a > 0 then (0 : ℚ) else a) = min a 0 := by
  rcases le_or_lt a 0 with h | h
  · rw [if_neg (not_lt.mpr h), min_eq_left h]
  · rw [if_pos h, min_eq_right (le_of_lt h)]

lemma min_zero_lt_neg_five (a : ℚ) : min a 0 < -5 ↔ a < -5 := by
  rw [min_lt_iff]
  constructor
  · rintro (h | h)
    · exact h
    · linarith
  · exact fun h => Or.inl h

/-- C5 amended: a trim component below `-5` mm causes the calibration to
abort with a failure result; a component above `0` does not abort — it is
silently clamped to `0` and the (clamped) trim is used. -/
theorem C5_amended (t : ℚ × ℚ × ℚ) :
    (trim_sanity t = none ↔ (t.1 < -5 ∨ t.2.1 < -5 ∨ t.2.2 < -5)) ∧
    (¬(t.1 < -5 ∨ t.2.1 < -5 ∨ t.2.2 < -5) →
      trim_sanity t = some (min t.1 0, min t.2.1 0, min t.2.2 0)) := by
  unfold trim_sanity
  simp only [clamp_pos_eq_min]
  have hcond : (min t.1 0 < -5 ∨ min t.2.1 0 < -5 ∨ min t.2.2 0 < -5) ↔
      (t.1 < -5 ∨ t.2.1 < -5 ∨ t.2.2 < -5) := by
    rw [min_zero_lt_neg_five, min_zero_lt_neg_five, min_zero_lt_neg_five]
  by_cases h : t.1 < -5 ∨ t.2.1 < -5 ∨ t.2.2 < -5
  · rw [if_pos (hcond.mpr h)]
    exact ⟨⟨fun _ => h, fun _ => rfl⟩, fun hn => absurd h hn⟩
  · rw [if_neg fun hc => h (hcond.mp hc)]
    exact ⟨⟨fun hsome => absurd hsome (Option.some_ne_none _), fun hh => absurd hh h⟩,
      fun _ => rfl⟩

/-- Witness for C5 amended at the concrete trim `(0, -1, -2)`. -/
theorem C5_amended_witness :
    ¬((0 : ℚ) < -5 ∨ (-1 : ℚ) < -5 ∨ (-2 : ℚ) < -5) ∧
    trim_sanity (0, -1, -2) = some (0, -1, -2) := by
  have h : ¬(((0 : ℚ), (-1 : ℚ), (-2 : ℚ)).1 < -5 ∨ ((0 : ℚ), (-1 : ℚ), (-2 : ℚ)).2.1 < -5 ∨
      ((0 : ℚ), (-1 : ℚ), (-2 : ℚ)).2.2 < -5) := by norm_num
  refine ⟨by norm_num, ?_⟩
  have h2 := (C5_amended (0, -1, -2)).2 h
  rw [h2]
  norm_num

/-! ### Claim C4: the tower-offset redistribution step -/

/-- C4 counterexample: for tower radius offsets `(-3, 1, 2)` the offset with
the smallest absolute magnitude is `1`, but the code's scan — which compares
`fabs(v[k])` against a *signed* running value — selects `-3`, so the code
subtracts `-3` from all offsets and adds `-3` to the delta radius, while
the claim demands subtracting `1` and adding `1`. -/
theorem C4_counterexample :
    redistribute (-3, 1, 2) 100 = ((0, 4, 5), 97) ∧
    spec_redistribute (-3, 1, 2) 100 = ((-4, 0, 1), 101) ∧
    redistribute (-3, 1, 2) 100 ≠ spec_redistribute (-3, 1, 2) 100 := by
  have h1 : lowest_scan (-3, 1, 2) = -3 := by
    unfold lowest_scan
    rw [show |((-3 : ℚ), (1 : ℚ), (2 : ℚ)).1| = 3 by norm_num]
    norm_num
  have h2 : smallest_abs (-3, 1, 2) = 1 := by
    unfold smallest_abs
    rw [show |((-3 : ℚ), (1 : ℚ), (2 : ℚ)).1| = 3 by norm_num]
    norm_num
  refine ⟨?_, ?_, ?_⟩
  · unfold redistribute
    rw [h1]
    norm_num
  · unfold spec_redistribute
    rw [h2]
    norm_num
  · unfold redistribute spec_redistribute
    rw [h1, h2]
    intro hc
    rw [Prod.ext_iff, Prod.ext_iff] at hc
    have := hc.1.1
    norm_num at this

/-- C4 amended: only the tower-radius group performs a redistribution step
(the tower-angle group performs none); the value it selects equals the
smallest-magnitude offset whenever all three offsets are non-negative (and
below the scan's `999` sentinel), but in general it can be a
larger-magnitude negative offset; in every case the selected value is
subtracted from all three offsets and added to the delta radius, so each
tower's effective radius (global delta radius plus per-tower offset) is
preserved. -/
theorem C4_amended (v : ℚ × ℚ × ℚ) (dr : ℚ)
    (h1 : 0 ≤ v.1) (h2 : 0 ≤ v.2.1) (h3 : 0 ≤ v.2.2) (h4 : v.1 < 999) :
    lowest_scan v = smallest_abs v ∧
    (redistribute v dr).1.1 + (redistribute v dr).2 = v.1 + dr ∧
    (redistribute v dr).1.2.1 + (redistribute v dr).2 = v.2.1 + dr ∧
    (redistribute v dr).1.2.2 + (redistribute v dr).2 = v.2.2 + dr := by
  refine ⟨?_, by unfold redistribute; ring, by unfold redistribute; ring,
    by unfold redistribute; ring⟩
  have hm : (0 : ℚ) ≤ if v.2.1 < v.1 then v.2.1 else v.1 := by
    split
    · exact h2
    · exact h1
  simp only [lowest_scan, smallest_abs, abs_of_nonneg h1, abs_of_nonneg h2, abs_of_nonneg h3,
    abs_of_nonneg hm, if_pos h4]

/-- Witness for C4 amended at offsets `(1/2, 3, 2)`. -/
theorem C4_amended_witness :
    ((0 : ℚ) ≤ 1 / 2 ∧ (0 : ℚ) ≤ 3 ∧ (0 : ℚ) ≤ 2 ∧ (1 / 2 : ℚ) < 999) ∧
    lowest_scan (1 / 2, 3, 2) = smallest_abs (1 / 2, 3, 2) := by
  refine ⟨by norm_num, ?_⟩
  exact (C4_amended (1 / 2, 3, 2) 0 (by norm_num) (by norm_num) (by norm_num)
    (by norm_num)).1

/-! ### Claim C8: the energy function -/

lemma calc_energy_fold (tags : ℕ → Tag) (z : ℕ → ℚ) :
    ∀ n : ℕ,
      List.foldl
        (fun (s : ℚ × ℕ) i => if tags i = Tag.active then (s.1 + |z i|, s.2 + 1) else s)
        (0, 0) (List.range n) =
      (∑ i in Finset.filter (fun i => tags i = Tag.active) (Finset.range n), |z i|,
       (Finset.filter (fun i => tags i = Tag.active) (Finset.range n)).card) := by
  intro n
  induction n with
  | zero => simp
  | succ n ih =>
      rw [List.range_succ, List.foldl_append, ih, List.foldl_cons, List.foldl_nil,
        Finset.range_succ, Finset.filter_insert]
      by_cases h : tags n = Tag.active
      · rw [if_pos h, if_pos h,
          Finset.sum_insert (by simp), Finset.card_insert_of_not_mem (by simp)]
        rw [Prod.mk.injEq]
        exact ⟨add_comm _ _, rfl⟩
      · rw [if_neg h, if_neg h]

/-- C8: `calc_energy` is the mean of `|relative height|` over exactly the
points tagged `TP_ACTIVE`; it is non-negative; it is zero iff every Active
point's relative height is zero; and points not tagged Active contribute
nothing (two depth arrays agreeing on Active points give equal energy).
The hypothesis that some Active point exists reflects that the C code
divides by the Active count (an initialized circular grid always has Active
points). -/
theorem C8_energy_spec (n : ℕ) (tags : ℕ → Tag) (z : ℕ → ℚ)
    (h : ∃ i, i < n ∧ tags i = Tag.active) :
    calc_energy n tags z =
      (∑ i in Finset.filter (fun i => tags i = Tag.active) (Finset.range n), |z i|) /
        ((Finset.filter (fun i => tags i = Tag.active) (Finset.range n)).card : ℚ) ∧
    0 ≤ calc_energy n tags z ∧
    (calc_energy n tags z = 0 ↔ ∀ i, i < n → tags i = Tag.active → z i = 0) ∧
    (∀ w : ℕ → ℚ, (∀ i, i < n → tags i = Tag.active → z i = w i) →
      calc_energy n tags z = calc_energy n tags w) := by
  obtain ⟨j, hj, hja⟩ := h
  have hmem : j ∈ Finset.filter (fun i => tags i = Tag.active) (Finset.range n) := by
    simp only [Finset.mem_filter, Finset.mem_range]
    exact ⟨hj, hja⟩
  have hcard : 0 < (Finset.filter (fun i => tags i = Tag.active) (Finset.range n)).card :=
    Finset.card_pos.mpr ⟨j, hmem⟩
  have hcard' : ((Finset.filter (fun i => tags i = Tag.active) (Finset.range n)).card : ℚ) ≠ 0 := by
    exact_mod_cast Nat.pos_iff_ne_zero.mp hcard
  have hdef : calc_energy n tags z =
      (∑ i in Finset.filter (fun i => tags i = Tag.active) (Finset.range n), |z i|) /
        ((Finset.filter (fun i => tags i = Tag.active) (Finset.range n)).card : ℚ) := by
    unfold calc_energy
    rw [calc_energy_fold]
  refine ⟨hdef, ?_, ?_, ?_⟩
  · rw [hdef]
    exact div_nonneg (Finset.sum_nonneg fun i _ => abs_nonneg _) (Nat.cast_nonneg _)
  · rw [hdef, div_eq_zero_iff]
    constructor
    · rintro (hs | hc)
      · intro i hi hia
        have hz : |z i| = 0 :=
          (Finset.sum_eq_zero_iff_of_nonneg fun k _ => abs_nonneg (z k)).mp hs i
            (by simp only [Finset.mem_filter, Finset.mem_range]; exact ⟨hi, hia⟩)
        exact abs_eq_zero.mp hz
      · exact absurd hc hcard'
    · intro hz
      left
      apply Finset.sum_eq_zero
      intro i hiS
      obtain ⟨hir, hia⟩ := Finset.mem_filter.mp hiS
      rw [hz i (Finset.mem_range.mp hir) hia, abs_zero]
  · intro w hw
    have hdefw : calc_energy n tags w =
        (∑ i in Finset.filter (fun i => tags i = Tag.active) (Finset.range n), |w i|) /
          ((Finset.filter (fun i => tags i = Tag.active) (Finset.range n)).card : ℚ) := by
      unfold calc_energy
      rw [calc_energy_fold]
    rw [hdef, hdefw]
    congr 1
    apply Finset.sum_congr rfl
    intro i hiS
    obtain ⟨hir, hia⟩ := Finset.mem_filter.mp hiS
    rw [hw i (Finset.mem_range.mp hir) hia]

/-- Witness for C8 on a 3-point grid with one Active point. -/
theorem C8_energy_witness :
    (∃ i, i < 3 ∧ (fun k => if k = 1 then Tag.active else Tag.inactive) i = Tag.active) ∧
    0 ≤ calc_energy 3 (fun k => if k = 1 then Tag.active else Tag.inactive) (fun k => (k : ℚ)) := by
  have h : ∃ i, i < 3 ∧ (fun k => if k = 1 then Tag.active else Tag.inactive) i = Tag.active :=
    ⟨1, by norm_num⟩
  exact ⟨h, (C8_energy_spec 3 _ _ h).2.1⟩

/-! ### Claim C10: loading the persisted depth map -/

/-- The sequence of values carried by the file's non-comment lines. -/
def dm_vals : List DMLine → List ℚ
  | [] => []
  | DMLine.comment :: rest => dm_vals rest
  | DMLine.val v :: rest => v :: dm_vals rest

lemma load_go_abort (nE : ℕ) :
    ∀ (lines : List DMLine) (depth : ℕ → ℚ) (i p : ℕ),
      i + p < nE → p < (dm_vals lines).length →
      ¬(-5 < (dm_vals lines).getD p 0 ∧ (dm_vals lines).getD p 0 < 5) →
      (∀ q, q < p → -5 < (dm_vals lines).getD q 0 ∧ (dm_vals lines).getD q 0 < 5) →
      load_go nE lines depth i = none := by
  intro lines
  induction lines with
  | nil =>
      intro depth i p _ h2 _ _
      simp [dm_vals] at h2
  | cons hd rest ih =>
      intro depth i p h1 h2 h3 h4
      cases hd with
      | comment =>
          simp only [dm_vals] at h2 h3 h4
          simp only [load_go]
          exact ih depth i p h1 h2 h3 h4
      | val v =>
          cases p with
          | zero =>
              simp only [dm_vals, List.getD_cons_zero] at h3
              simp only [load_go]
              rw [if_pos (by omega), if_neg h3]
          | succ p =>
              simp only [dm_vals, List.getD_cons_succ, List.length_cons] at h2 h3 h4
              have hv : -5 < v ∧ v < 5 := by
                have := h4 0 (Nat.succ_pos p)
                simpa using this
              simp only [load_go]
              rw [if_pos (by omega), if_pos hv]
              exact ih _ (i + 1) p (by omega) (by omega) h3 fun q hq => by
                have := h4 (q + 1) (by omega)
                simpa using this

lemma load_go_count (nE : ℕ) :
    ∀ (lines : List DMLine) (depth : ℕ → ℚ) (i : ℕ) (r : (ℕ → ℚ) × ℕ),
      load_go nE lines depth i = some r → i ≤ nE → r.2 ≤ nE := by
  intro lines
  induction lines with
  | nil =>
      intro depth i r hr hi
      simp only [load_go, Option.some.injEq] at hr
      rw [← hr]
      exact hi
  | cons hd rest ih =>
      intro depth i r hr hi
      cases hd with
      | comment =>
          simp only [load_go] at hr
          exact ih depth i r hr hi
      | val v =>
          simp only [load_go] at hr
          by_cases hlt : i < nE
          · rw [if_pos hlt] at hr
            by_cases hv : -5 < v ∧ v < 5
            · rw [if_pos hv] at hr
              exact ih _ (i + 1) r hr (by omega)
            · rw [if_neg hv] at hr
              exact absurd hr (by simp)
          · rw [if_neg hlt] at hr
            exact ih depth i r hr hi

/-- C10: the depth-map load path (`M667 E` with no depth map yet loaded).
(1) A parsed value outside the open interval `(-5, 5)` — occurring among
the first `DM_GRID_ELEMENTS` values, which are the only ones the loop
examines — aborts the load with a failure result and depth correction
disabled.  (2) If the number of accepted values differs from
`DM_GRID_ELEMENTS`, the map is rejected: `have_depth_map` is cleared and
depth correction is forced disabled.  (3) Depth correction can end up
enabled only when exactly `DM_GRID_ELEMENTS` in-range values were read and
the command requested enabling.  (The accepted count never exceeds
`DM_GRID_ELEMENTS`.) -/
theorem C10_load_spec (nE : ℕ) (e : Bool) (lines : List DMLine) :
    ((∃ p, p < nE ∧ p < (dm_vals lines).length ∧
        ¬(-5 < (dm_vals lines).getD p 0 ∧ (dm_vals lines).getD p 0 < 5) ∧
        (∀ q, q < p → -5 < (dm_vals lines).getD q 0 ∧ (dm_vals lines).getD q 0 < 5)) →
      (load_depth_map nE e lines).ok = false ∧
      (load_depth_map nE e lines).depth_enabled = false) ∧
    ((load_depth_map nE e lines).ok = true → (load_depth_map nE e lines).nloaded ≠ nE →
      (load_depth_map nE e lines).have_depth_map = false ∧
      (load_depth_map nE e lines).depth_enabled = false) ∧
    ((load_depth_map nE e lines).depth_enabled = true →
      (load_depth_map nE e lines).nloaded = nE ∧ e = true) ∧
    (load_depth_map nE e lines).nloaded ≤ nE := by
  refine ⟨?_, ?_, ?_, ?_⟩
  · rintro ⟨p, hp1, hp2, hp3, hp4⟩
    have habort : load_go nE lines (fun _ => 0) 0 = none :=
      load_go_abort nE lines (fun _ => 0) 0 p (by omega) hp2 hp3 hp4
    simp [load_depth_map, habort]
  · rcases hgo : load_go nE lines (fun _ => 0) 0 with _ | ⟨d, i⟩
    · simp only [load_depth_map, hgo]
      intro hok
      exact absurd hok (by simp)
    · simp only [load_depth_map, hgo]
      by_cases hi : i ≠ nE
      · rw [if_pos hi]
        intro _ _
        exact ⟨rfl, rfl⟩
      · rw [if_neg hi]
        intro _ hne
        push_neg at hi
        exact absurd hi hne
  · rcases hgo : load_go nE lines (fun _ => 0) 0 with _ | ⟨d, i⟩
    · simp only [load_depth_map, hgo]
      intro hen
      exact absurd hen (by simp)
    · simp only [load_depth_map, hgo]
      by_cases hi : i ≠ nE
      · rw [if_pos hi]
        intro hen
        exact absurd hen (by simp)
      · rw [if_neg hi]
        intro hen
        push_neg at hi
        exact ⟨hi, hen⟩
  · rcases hgo : load_go nE lines (fun _ => 0) 0 with _ | ⟨d, i⟩
    · simp only [load_depth_map, hgo]
      exact Nat.zero_le _
    · have hle := load_go_count nE lines (fun _ => 0) 0 (d, i) hgo (Nat.zero_le _)
      simp only [load_depth_map, hgo]
      by_cases hi : i ≠ nE
      · rw [if_pos hi]
        exact hle
      · rw [if_neg hi]
        exact hle

/-- Witness for C10: a file with only 3 of the expected 4 values loads
without abort but is rejected — `have_depth_map` cleared and depth
correction disabled. -/
theorem C10_load_witness :
    (load_depth_map 4 true [DMLine.comment, DMLine.val 1, DMLine.val 2, DMLine.val 3]).ok
        = true ∧
    (load_depth_map 4 true [DMLine.comment, DMLine.val 1, DMLine.val 2, DMLine.val 3]).nloaded
        ≠ 4 ∧
    (load_depth_map 4 true
        [DMLine.comment, DMLine.val 1, DMLine.val 2, DMLine.val 3]).have_depth_map = false ∧
    (load_depth_map 4 true
        [DMLine.comment, DMLine.val 1, DMLine.val 2, DMLine.val 3]).depth_enabled = false := by
  have hg : load_go 4 [DMLine.comment, DMLine.val 1, DMLine.val 2, DMLine.val 3]
      (fun _ => 0) 0 = some
      ((fun j => if j = 2 then (3 : ℚ) else if j = 1 then 2 else if j = 0 then 1 else 0), 3) := by
    simp only [load_go]
    norm_num
  have hok : (load_depth_map 4 true
      [DMLine.comment, DMLine.val 1, DMLine.val 2, DMLine.val 3]).ok = true := by
    simp only [load_depth_map, hg]
    norm_num
  have hne : (load_depth_map 4 true
      [DMLine.comment, DMLine.val 1, DMLine.val 2, DMLine.val 3]).nloaded ≠ 4 := by
    simp only [load_depth_map, hg]
    norm_num
  obtain ⟨hh, hd⟩ := (C10_load_spec 4 true
    [DMLine.comment, DMLine.val 1, DMLine.val 2, DMLine.val 3]).2.1 hok hne
  exact ⟨hok, hne, hh, hd⟩

/-! ### Claim C7: the directed binary search -/

lemma foc_zero (f : ℚ → ℚ) (mn mx w t : ℚ) :
    find_optimal_config f 0 mn mx w t = (mn + mx) / 2 := by
  simp only [find_optimal_config]

lemma foc_stop (f : ℚ → ℚ) (fuel : ℕ) (mn mx w t : ℚ) (h : mx - mn ≤ t) :
    find_optimal_config f (fuel + 1) mn mx w t = (mn + mx) / 2 := by
  simp only [find_optimal_config]
  rw [if_pos h]

lemma foc_step_lt (f : ℚ → ℚ) (fuel : ℕ) (mn mx w t : ℚ)
    (h1 : ¬ mx - mn ≤ t) (h2 : f mn < f mx) :
    find_optimal_config f (fuel + 1) mn mx w t =
      find_optimal_config f fuel mn (mx - (mx - mn) * w) w t := by
  simp only [find_optimal_config]
  rw [if_neg h1, if_pos h2, if_neg (show ¬ f mn > f mx from lt_asymm h2)]

lemma foc_step_gt (f : ℚ → ℚ) (fuel : ℕ) (mn mx w t : ℚ)
    (h1 : ¬ mx - mn ≤ t) (h2 : f mx < f mn) :
    find_optimal_config f (fuel + 1) mn mx w t =
      find_optimal_config f fuel (mn + (mx - mn) * w) mx w t := by
  simp only [find_optimal_config]
  rw [if_neg h1, if_neg (show ¬ f mn < f mx from lt_asymm h2),
    if_pos (show f mn > f mx from h2)]

lemma foc_step_same (f : ℚ → ℚ) (fuel : ℕ) (mn mx w t : ℚ)
    (h1 : ¬ mx - mn ≤ t) (h2 : f mn = f mx) :
    find_optimal_config f (fuel + 1) mn mx w t =
      find_optimal_config f fuel mn mx w t := by
  simp only [find_optimal_config]
  rw [if_neg h1, if_neg (show ¬ f mn < f mx by rw [h2]; exact lt_irrefl _),
    if_neg (show ¬ f mn > f mx by rw [h2]; exact lt_irrefl _)]

/-- C7 amended: `find_optimal_config` runs at most 250 iterations (the fuel
of the embedding); whenever `max - min ≤ target` it stops immediately and
returns the midpoint; otherwise it narrows only the bound whose energy is
strictly worse by `width` times the current range; and (for
`0 ≤ width ≤ 1` on a well-ordered range) the returned value always lies
inside the initial `[min, max]`.  The claim's further assertion — that the
result lies within `target` of a unimodal energy function's minimum — is
false (see the counterexample). -/
theorem C7_amended (f : ℚ → ℚ) (w t : ℚ) (hw0 : 0 ≤ w) (hw1 : w ≤ 1) :
    ∀ (fuel : ℕ) (mn mx : ℚ), mn ≤ mx →
      mn ≤ find_optimal_config f fuel mn mx w t ∧
      find_optimal_config f fuel mn mx w t ≤ mx ∧
      (mx - mn ≤ t → find_optimal_config f (fuel + 1) mn mx w t = (mn + mx) / 2) := by
  intro fuel
  induction fuel with
  | zero =>
      intro mn mx h
      rw [foc_zero]
      exact ⟨by linarith, by linarith, fun hc => foc_stop f 0 mn mx w t hc⟩
  | succ fuel ih =>
      intro mn mx h
      have hb : mn ≤ find_optimal_config f (fuel + 1) mn mx w t ∧
          find_optimal_config f (fuel + 1) mn mx w t ≤ mx := by
        by_cases hstop : mx - mn ≤ t
        · rw [foc_stop f fuel mn mx w t hstop]
          constructor <;> linarith
        · rcases lt_trichotomy (f mn) (f mx) with hlt | heq | hgt
          · rw [foc_step_lt f fuel mn mx w t hstop hlt]
            have hb1 : mn ≤ mx - (mx - mn) * w := by nlinarith
            have hb2 : mx - (mx - mn) * w ≤ mx := by nlinarith
            obtain ⟨i1, i2, _⟩ := ih mn (mx - (mx - mn) * w) hb1
            exact ⟨i1, le_trans i2 hb2⟩
          · rw [foc_step_same f fuel mn mx w t hstop heq]
            obtain ⟨i1, i2, _⟩ := ih mn mx h
            exact ⟨i1, i2⟩
          · rw [foc_step_gt f fuel mn mx w t hstop hgt]
            have hb1 : mn ≤ mn + (mx - mn) * w := by nlinarith
            have hb2 : mn + (mx - mn) * w ≤ mx := by nlinarith
            obtain ⟨i1, i2, _⟩ := ih (mn + (mx - mn) * w) mx hb2
            exact ⟨le_trans hb1 i1, i2⟩
      exact ⟨hb.1, hb.2, fun hc => foc_stop f (fuel + 1) mn mx w t hc⟩

/-- Witness for C7 amended: the identity energy on `[0, 1]` with
`width = 1/2`, `target = 1/100`, fuel 3. -/
theorem C7_amended_witness :
    ((0 : ℚ) ≤ 1 / 2 ∧ (1 / 2 : ℚ) ≤ 1 ∧ (0 : ℚ) ≤ 1) ∧
    0 ≤ find_optimal_config (fun x => x) 3 0 1 (1 / 2) (1 / 100) ∧
    find_optimal_config (fun x => x) 3 0 1 (1 / 2) (1 / 100) ≤ 1 := by
  have h := C7_amended (fun x => x) (1 / 2) (1 / 100) (by norm_num) (by norm_num) 3 0 1
    (by norm_num)
  exact ⟨⟨by norm_num, by norm_num, by norm_num⟩, h.1, h.2.1⟩

/-- C7 counterexample: `vee` is unimodal on `[0, 1]` — strictly decreasing
then strictly increasing, with unique minimum at `1/100`, which is interior
to the range — yet `find_optimal_config` with 250 iterations,
`width = 1/2` and `target = 1/200 = 0.005` returns `257/512 ≈ 0.502`,
which is not within `target` of the minimum: the first comparison
`f(0) > f(1)` moves `min` from `0` to `1/2`, past the minimum, and the
bracket never recovers. -/
theorem C7_counterexample :
    (StrictAntiOn vee (Set.Icc (0 : ℚ) (1 / 100)) ∧
     StrictMonoOn vee (Set.Icc (1 / 100 : ℚ) 1) ∧
     (0 : ℚ) < 1 / 100 ∧ (1 / 100 : ℚ) < 1 ∧
     (∀ x ∈ Set.Icc (0 : ℚ) 1, vee (1 / 100) ≤ vee x)) ∧
    ¬(|find_optimal_config vee 250 0 1 (1 / 2) (1 / 200) - 1 / 100| ≤ 1 / 200) := by
  constructor
  · refine ⟨?_, ?_, by norm_num, by norm_num, ?_⟩
    · intro x hx y hy hxy
      simp only [vee]
      rw [if_pos hx.2, if_pos hy.2]
      linarith
    · intro x hx y hy hxy
      have hy1 : ¬ y ≤ 1 / 100 := not_le.mpr (lt_of_le_of_lt hx.1 hxy)
      simp only [vee]
      rw [if_neg hy1]
      rcases eq_or_lt_of_le hx.1 with heq | hlt
      · rw [if_pos (le_of_eq heq.symm), ← heq]
        have hpos : (0 : ℚ) < y - 1 / 100 := by linarith [not_le.mp hy1]
        nlinarith
      · rw [if_neg (not_le.mpr hlt)]
        have hk : (0 : ℚ) < 50 / 99 := by norm_num
        nlinarith
    · intro x hx
      have hmin : vee (1 / 100) = 0 := by
        simp only [vee]
        rw [if_pos (le_refl _)]
        norm_num
      rw [hmin]
      simp only [vee]
      split
      · next hle => linarith [hx.1]
      · next hgt =>
          have hpos : (0 : ℚ) ≤ x - 1 / 100 := by linarith [not_le.mp hgt]
          have hk : (0 : ℚ) ≤ 50 / 99 := by norm_num
          exact mul_nonneg hpos hk
  · have s1 : find_optimal_config vee 250 0 1 (1 / 2) (1 / 200) =
        find_optimal_config vee 249 (1 / 2) 1 (1 / 2) (1 / 200) := by
      rw [show (250 : ℕ) = 249 + 1 from rfl,
        foc_step_gt vee 249 0 1 (1 / 2) (1 / 200) (by norm_num) (by norm_num [vee])]
      norm_num
    have s2 : find_optimal_config vee 249 (1 / 2) 1 (1 / 2) (1 / 200) =
        find_optimal_config vee 248 (1 / 2) (3 / 4) (1 / 2) (1 / 200) := by
      rw [show (249 : ℕ) = 248 + 1 from rfl,
        foc_step_lt vee 248 (1 / 2) 1 (1 / 2) (1 / 200) (by norm_num) (by norm_num [vee])]
      norm_num
    have s3 : find_optimal_config vee 248 (1 / 2) (3 / 4) (1 / 2) (1 / 200) =
        find_optimal_config vee 247 (1 / 2) (5 / 8) (1 / 2) (1 / 200) := by
      rw [show (248 : ℕ) = 247 + 1 from rfl,
        foc_step_lt vee 247 (1 / 2) (3 / 4) (1 / 2) (1 / 200) (by norm_num)
          (by norm_num [vee])]
      norm_num
    have s4 : find_optimal_config vee 247 (1 / 2) (5 / 8) (1 / 2) (1 / 200) =
        find_optimal_config vee 246 (1 / 2) (9 / 16) (1 / 2) (1 / 200) := by
      rw [show (247 : ℕ) = 246 + 1 from rfl,
        foc_step_lt vee 246 (1 / 2) (5 / 8) (1 / 2) (1 / 200) (by norm_num)
          (by norm_num [vee])]
      norm_num
    have s5 : find_optimal_config vee 246 (1 / 2) (9 / 16) (1 / 2) (1 / 200) =
        find_optimal_config vee 245 (1 / 2) (17 / 32) (1 / 2) (1 / 200) := by
      rw [show (246 : ℕ) = 245 + 1 from rfl,
        foc_step_lt vee 245 (1 / 2) (9 / 16) (1 / 2) (1 / 200) (by norm_num)
          (by norm_num [vee])]
      norm_num
    have s6 : find_optimal_config vee 245 (1 / 2) (17 / 32) (1 / 2) (1 / 200) =
        find_optimal_config vee 244 (1 / 2) (33 / 64) (1 / 2) (1 / 200) := by
      rw [show (245 : ℕ) = 244 + 1 from rfl,
        foc_step_lt vee 244 (1 / 2) (17 / 32) (1 / 2) (1 / 200) (by norm_num)
          (by norm_num [vee])]
      norm_num
    have s7 : find_optimal_config vee 244 (1 / 2) (33 / 64) (1 / 2) (1 / 200) =
        find_optimal_config vee 243 (1 / 2) (65 / 128) (1 / 2) (1 / 200) := by
      rw [show (244 : ℕ) = 243 + 1 from rfl,
        foc_step_lt vee 243 (1 / 2) (33 / 64) (1 / 2) (1 / 200) (by norm_num)
          (by norm_num [vee])]
      norm_num
    have s8 : find_optimal_config vee 243 (1 / 2) (65 / 128) (1 / 2) (1 / 200) =
        find_optimal_config vee 242 (1 / 2) (129 / 256) (1 / 2) (1 / 200) := by
      rw [show (243 : ℕ) = 242 + 1 from rfl,
        foc_step_lt vee 242 (1 / 2) (65 / 128) (1 / 2) (1 / 200) (by norm_num)
          (by norm_num [vee])]
      norm_num
    have s9 : find_optimal_config vee 242 (1 / 2) (129 / 256) (1 / 2) (1 / 200) =
        257 / 512 := by
      rw [show (242 : ℕ) = 241 + 1 from rfl,
        foc_stop vee 241 (1 / 2) (129 / 256) (1 / 2) (1 / 200) (by norm_num)]
      norm_num
    have hval : find_optimal_config vee 250 0 1 (1 / 2) (1 / 200) = 257 / 512 := by
      rw [s1, s2, s3, s4, s5, s6, s7, s8, s9]
    rw [hval, abs_of_nonneg (by norm_num : (0 : ℚ) ≤ 257 / 512 - 1 / 100)]
    norm_num

/-! ### Claims C1 and C2: the bilinear hot path -/

lemma array_x_grid (dim : ℕ) (R : ℚ) (c : ℕ) (hdim : 2 ≤ dim) (hR : 0 < R)
    (hc : c < dim) : array_x dim R (test_point_x dim R c) = (c : ℚ) := by
  have hd2 : (2 : ℚ) ≤ (dim : ℚ) := by exact_mod_cast hdim
  have hdne : ((dim : ℚ) - 1) ≠ 0 := by linarith
  have hRne : R ≠ 0 := ne_of_gt hR
  have hcle : (c : ℚ) ≤ (dim : ℚ) - 1 := by
    have : (c : ℚ) + 1 ≤ (dim : ℚ) := by exact_mod_cast hc
    linarith
  have hspos : 0 < R * 2 / ((dim : ℚ) - 1) := div_pos (by linarith) (by linarith)
  have hxlo : -R ≤ test_point_x dim R c := by
    unfold test_point_x point_spacing
    have := mul_nonneg (Nat.cast_nonneg c : (0 : ℚ) ≤ c) (le_of_lt hspos)
    linarith
  have hxhi : test_point_x dim R c ≤ R := by
    unfold test_point_x point_spacing
    have h2 : (c : ℚ) * (R * 2 / ((dim : ℚ) - 1)) ≤
        ((dim : ℚ) - 1) * (R * 2 / ((dim : ℚ) - 1)) :=
      mul_le_mul_of_nonneg_right hcle (le_of_lt hspos)
    have h3 : ((dim : ℚ) - 1) * (R * 2 / ((dim : ℚ) - 1)) = R * 2 := by field_simp
    linarith
  unfold array_x clampQ
  rw [min_eq_left hxhi, max_eq_right hxlo]
  unfold test_point_x point_spacing
  field_simp
  ring

lemma array_y_grid (dim : ℕ) (R : ℚ) (r : ℕ) (hdim : 2 ≤ dim) (hR : 0 < R)
    (hr : r < dim) : array_y dim R (test_point_y dim R r) = (r : ℚ) := by
  have hd2 : (2 : ℚ) ≤ (dim : ℚ) := by exact_mod_cast hdim
  have hdne : ((dim : ℚ) - 1) ≠ 0 := by linarith
  have hRne : R ≠ 0 := ne_of_gt hR
  have hrle : (r : ℚ) ≤ (dim : ℚ) - 1 := by
    have : (r : ℚ) + 1 ≤ (dim : ℚ) := by exact_mod_cast hr
    linarith
  have hspos : 0 < R * 2 / ((dim : ℚ) - 1) := div_pos (by linarith) (by linarith)
  have hyhi : test_point_y dim R r ≤ R := by
    unfold test_point_y point_spacing
    have := mul_nonneg (Nat.cast_nonneg r : (0 : ℚ) ≤ r) (le_of_lt hspos)
    linarith
  have hylo : -R ≤ test_point_y dim R r := by
    unfold test_point_y point_spacing
    have h2 : (r : ℚ) * (R * 2 / ((dim : ℚ) - 1)) ≤
        ((dim : ℚ) - 1) * (R * 2 / ((dim : ℚ) - 1)) :=
      mul_le_mul_of_nonneg_right hrle (le_of_lt hspos)
    have h3 : ((dim : ℚ) - 1) * (R * 2 / ((dim : ℚ) - 1)) = R * 2 := by field_simp
    linarith
  unfold array_y clampQ
  rw [min_eq_left hyhi, max_eq_right hylo]
  unfold test_point_y point_spacing
  field_simp
  ring

/-- C1: evaluation of the code at the failing input.  At
`(targetX, targetY) = (0, -probe_radius)` — already inside the clamp range,
so clamping changes nothing — the fractional array position is
`(2, DM_GRID_DIMENSION - 1)`, so `y2 = DM_GRID_DIMENSION` and the computed
indices `st_Q12 = 27` and `st_Q22 = 28` exceed
`DM_GRID_ELEMENTS - 1 = 24`: the C code reads past the end of the depth
array, and the Option-returning embedding hits its out-of-bounds branch.
(Shown for a 5×5 grid with probe radius 100, depth correction enabled and
plane correction disabled.) -/
theorem C1_oob_eval :
    bili_idx 5 100 0 (-100) = (22, 27, 23, 28) ∧
    ¬((27 : ℤ) < 5 * 5) ∧
    get_adjust_z 5 100 ⟨false, true, true, 0, 0, 1, 0, fun _ => 0⟩ 0 (-100) = none := by
  have hax : array_x 5 100 0 = 2 := by
    unfold array_x clampQ
    norm_num
  have hay : array_y 5 100 (-100) = 4 := by
    unfold array_y clampQ
    norm_num
  refine ⟨?_, by norm_num, ?_⟩
  · unfold bili_idx
    rw [hax, hay]
    norm_num
  · simp only [get_adjust_z, Bool.false_and, Bool.and_self]
    rw [if_pos trivial, hax, hay]
    norm_num

/-- C2 counterexample: evaluated exactly at the bottom-left grid point
`(-R, -R)` (row `DM_GRID_DIMENSION - 1`, column `0`) of a 5×5 grid with
`R = 100`, `get_adjust_z` does not return that point's stored depth
(`depth[20] = 20` here): the surrounding-cell indices `st_Q12 = 25` and
`st_Q22 = 26` are out of bounds, so the embedding returns `none` (the C
code reads past the end of the array). -/
theorem C2_counterexample :
    get_adjust_z 5 100 ⟨false, true, true, 0, 0, 1, 0, fun i => (i : ℚ)⟩
      (-100) (-100) = none := by
  have hax : array_x 5 100 (-100) = 0 := by
    unfold array_x clampQ
    norm_num
  have hay : array_y 5 100 (-100) = 4 := by
    unfold array_y clampQ
    norm_num
  simp only [get_adjust_z, Bool.false_and, Bool.and_self]
  rw [if_pos trivial, hax, hay]
  norm_num

/-- C2 amended: with depth correction enabled and plane correction
disabled, `get_adjust_z` evaluated exactly at a grid point's Cartesian
coordinates returns that point's stored depth exactly, at every grid point
whose surrounding-cell indices stay inside the depth array — the rows
`0 .. DM_GRID_DIMENSION - 2`, except the single point
`(row DM_GRID_DIMENSION - 2, column DM_GRID_DIMENSION - 1)`; at the
remaining (bottom-row and bottom-right-cell) grid points the code reads out
of bounds (see the counterexample). -/
theorem C2_amended (dim : ℕ) (R : ℚ) (st : SurfTrans) (r c : ℕ)
    (hplane : st.plane_enabled = false) (hdepth : st.depth_enabled = true)
    (hact : st.active = true) (hdim : 2 ≤ dim) (hR : 0 < R)
    (hr : r + 1 < dim) (hc : c < dim)
    (hin : (r + 1) * dim + (c + 1) < dim * dim) :
    get_adjust_z dim R st (test_point_x dim R c) (test_point_y dim R r) =
      some (st.depth (r * dim + c)) := by
  have hax := array_x_grid dim R c hdim hR hc
  have hay := array_y_grid dim R r hdim hR (by omega)
  have Hin : ((r : ℤ) + 1) * (dim : ℤ) + ((c : ℤ) + 1) < (dim : ℤ) * (dim : ℤ) := by
    exact_mod_cast hin
  have Hr : (r : ℤ) + 1 < (dim : ℤ) := by exact_mod_cast hr
  have Hc : (c : ℤ) < (dim : ℤ) := by exact_mod_cast hc
  have Hdim : (2 : ℤ) ≤ (dim : ℤ) := by exact_mod_cast hdim
  have HmulZ : ((r : ℤ) + 1) * (dim : ℤ) = (r : ℤ) * (dim : ℤ) + (dim : ℤ) := by ring
  have HB : (0 : ℤ) ≤ (r : ℤ) * (dim : ℤ) := by positivity
  simp only [get_adjust_z, hplane, hdepth, hact, Bool.false_and, Bool.and_self]
  rw [if_pos trivial, hax, hay, Int.floor_natCast, Int.floor_natCast]
  have harg : (r : ℤ) * (dim : ℤ) + (c : ℤ) = ((r * dim + c : ℕ) : ℤ) := by push_cast; ring
  split
  · rw [harg, Int.toNat_natCast]
    congr 1
    push_cast
    ring
  · next hfalse =>
      exfalso
      apply hfalse
      refine ⟨by omega, by omega, by omega, by omega, by omega, by omega, by omega, by omega⟩

/-- Witness for C2 amended: a 5×5 grid, `R = 100`, the grid point in row 1,
column 1 (index 6), with the depth array `depth[i] = i`. -/
theorem C2_amended_witness :
    get_adjust_z 5 100 ⟨false, true, true, 0, 0, 1, 0, fun i => (i : ℚ)⟩
      (test_point_x 5 100 1) (test_point_y 5 100 1) = some 6 := by
  have h := C2_amended 5 100 ⟨false, true, true, 0, 0, 1, 0, fun i => (i : ℚ)⟩ 1 1
    rfl rfl rfl (by norm_num) (by norm_num) (by norm_num) (by norm_num) (by norm_num)
  rw [h]
  norm_num

/-! ### Claim C3: grid classification -/

/-- The classification exactly as claim C3 words it: Active iff distance
from origin ≤ radius; otherwise ActiveNeighbor iff distance ≤
`radius + radius / ((gridSize - 1) / 2)` and the point is not on the outer
rows or columns of the grid; otherwise Inactive (and no Center tag). -/
def claimC3_tag (dim : ℕ) (R : ℚ) (i : ℕ) : Tag :=
  if dist2 ((0 : ℚ), (0 : ℚ)) (test_point dim R i) ≤ R ^ 2 then
    Tag.active
  else if dist2 ((0 : ℚ), (0 : ℚ)) (test_point dim R i) ≤ (neighboring_probe_radius dim R) ^ 2
      ∧ i / dim ≠ 0
      ∧ i / dim ≠ dim - 1
      ∧ i % dim ≠ 0
      ∧ i % dim ≠ dim - 1 then
    Tag.activeNeighbor
  else
    Tag.inactive

/-- C3 counterexample: on the 5×5 grid with radius 100, grid point 5
(row 1, column 0 — on the outer left column, at `(-100, 50)`, distance
`√12500 ≈ 111.8` from the origin) is tagged ActiveNeighbor by the code
(the neighbour test only excludes the top and bottom rows, never the outer
columns), while the claim's classification makes it Inactive. -/
theorem C3_counterexample :
    active_point 5 100 5 = Tag.activeNeighbor ∧ claimC3_tag 5 100 5 = Tag.inactive := by
  constructor
  · rw [active_point_eq 5 100 (by decide) (by decide) (by norm_num) 5,
      if_neg (by decide : ¬(5 = center_idx 5))]
    norm_num [classify, dist2, test_point, test_point_x, test_point_y, point_spacing,
      neighboring_probe_radius]
  · norm_num [claimC3_tag, dist2, test_point, test_point_x, test_point_y, point_spacing,
      neighboring_probe_radius]

/-- The classification as amended: the nearest-to-origin point (the exact
grid centre for an odd grid side) is tagged Center; any other point within
the probe radius is Active; a farther point is ActiveNeighbor iff its
distance is within the neighbouring radius AND its row is neither the top
nor the bottom row (columns are not restricted); all else Inactive. -/
def amendedC3_tag (dim : ℕ) (R : ℚ) (i : ℕ) : Tag :=
  if i = center_idx dim then
    Tag.center
  else if dist2 ((0 : ℚ), (0 : ℚ)) (test_point dim R i) ≤ R ^ 2 then
    Tag.active
  else if dist2 ((0 : ℚ), (0 : ℚ)) (test_point dim R i) ≤ (neighboring_probe_radius dim R) ^ 2
      ∧ i / dim ≠ 0
      ∧ i / dim ≠ dim - 1 then
    Tag.activeNeighbor
  else
    Tag.inactive

/-- C3 amended: after initialization of a circular platform (odd grid side
≥ 3, radius > 0), every grid point is classified per `amendedC3_tag`:
the centre point is Center (not Active); in-radius points are Active;
out-of-radius points are ActiveNeighbor iff within the neighbouring radius
and not on the top or bottom row (outer columns are not excluded); all
other points are Inactive. -/
theorem C3_amended (dim : ℕ) (R : ℚ) (hodd : dim % 2 = 1) (h3 : 3 ≤ dim) (hR : 0 < R)
    (i : ℕ) :
    active_point dim R i = amendedC3_tag dim R i := by
  rw [active_point_eq dim R hodd h3 hR i]
  unfold amendedC3_tag classify
  by_cases hc : i = center_idx dim
  · rw [if_pos hc, if_pos hc]
  · rw [if_neg hc, if_neg hc]
    have htriv : ((i / dim : ℕ) : ℤ) ≠ -((dim : ℤ) - 1) := by
      have h1 : (0 : ℤ) ≤ ((i / dim : ℕ) : ℤ) := Int.natCast_nonneg _
      have h2 : (2 : ℤ) ≤ (dim : ℤ) := by exact_mod_cast (by omega : 2 ≤ dim)
      omega
    by_cases h1 : dist2 ((0 : ℚ), (0 : ℚ)) (test_point dim R i) ≤ R ^ 2
    · rw [if_pos h1, if_pos h1]
    · rw [if_neg h1, if_neg h1]
      by_cases h2 : dist2 ((0 : ℚ), (0 : ℚ)) (test_point dim R i) ≤
          (neighboring_probe_radius dim R) ^ 2 ∧ i / dim ≠ 0 ∧ i / dim ≠ dim - 1
      · rw [if_pos ⟨h2.1, h2.2.1, h2.2.2, htriv⟩, if_pos h2]
      · rw [if_neg (fun hcon => h2 ⟨hcon.1, hcon.2.1, hcon.2.2.1⟩), if_neg h2]

/-- Witness for C3 amended at grid point 7 of the 5×5 grid, radius 100. -/
theorem C3_amended_witness :
    (5 % 2 = 1 ∧ 3 ≤ 5 ∧ (0 : ℚ) < 100) ∧
    active_point 5 100 7 = amendedC3_tag 5 100 7 :=
  ⟨⟨by decide, by decide, by norm_num⟩,
    C3_amended 5 100 (by decide) (by decide) (by norm_num) 7⟩

/-! ### Claim C9: find_nearest_test_point -/

/-- C9 counterexample: querying the initialized 5×5, radius-100 grid at
`(2000, 0)` — farther than the scan's hard-coded initial `lowest = 999`
from every grid point — leaves `lowest_idx` at its initial value `0`, and
grid point 0 (corner `(-100, 100)`) is tagged Inactive, contradicting the
claim that the scan always returns an Active-or-Center point. -/
theorem C9_counterexample :
    find_nearest_test_point 5 (active_point 5 100) (test_point 5 100) (2000, 0) = 0 ∧
    active_point 5 100 0 = Tag.inactive := by
  constructor
  · have hfar : ∀ i ∈ List.range (5 * 5),
        ¬((active_point 5 100 i = Tag.active ∨ active_point 5 100 i = Tag.center) ∧
          dist2 (2000, 0) (test_point 5 100 i) < ((998001 : ℚ), (0 : ℕ)).1) := by
      intro i hi
      rintro ⟨-, hlt⟩
      have hii : i < 25 := by
        have := List.mem_range.mp hi
        omega
      interval_cases i <;>
        norm_num [dist2, test_point, test_point_x, test_point_y, point_spacing] at hlt
    unfold find_nearest_test_point
    rw [fntp_foldl_of_far (active_point 5 100)
      (fun i => dist2 (2000, 0) (test_point 5 100 i)) (List.range (5 * 5)) (998001, 0) hfar]
  · rw [active_point_eq 5 100 (by decide) (by decide) (by norm_num) 0,
      if_neg (by decide : ¬(0 = center_idx 5))]
    norm_num [classify, dist2, test_point, test_point_x, test_point_y, point_spacing,
      neighboring_probe_radius]

/-- C9 amended: for every query position with at least one Active-or-Center
grid point strictly within the scan's initial `lowest = 999` (true in
particular for any query on the platform), `find_nearest_test_point` on the
initialized grid returns a valid index whose tag is Active or Center —
never Inactive or ActiveNeighbor — and whose Euclidean distance to the
query is minimal among all Active-or-Center points.  For queries farther
than 999 from every Active-or-Center point the scan returns its initial
index 0 whatever that point's tag (see the counterexample). -/
theorem C9_amended (dim : ℕ) (R : ℚ) (pos : ℚ × ℚ) (j : ℕ) (hj : j < dim * dim)
    (hgood : active_point dim R j = Tag.active ∨ active_point dim R j = Tag.center)
    (hnear : dist2 pos (test_point dim R j) < 998001) :
    (active_point dim R
        (find_nearest_test_point dim (active_point dim R) (test_point dim R) pos) =
        Tag.active ∨
      active_point dim R
        (find_nearest_test_point dim (active_point dim R) (test_point dim R) pos) =
        Tag.center) ∧
    find_nearest_test_point dim (active_point dim R) (test_point dim R) pos < dim * dim ∧
    ∀ k, k < dim * dim →
      (active_point dim R k = Tag.active ∨ active_point dim R k = Tag.center) →
      dist2 pos (test_point dim R
          (find_nearest_test_point dim (active_point dim R) (test_point dim R) pos)) ≤
        dist2 pos (test_point dim R k) :=
  fntp_spec dim (active_point dim R) (test_point dim R) pos j hj hgood hnear

/-- Witness for C9 amended: 5×5 grid, radius 100, query `(30, 40)`; the
centre point (index 12, at the origin, distance 50) witnesses the
hypothesis. -/
theorem C9_amended_witness :
    (12 < 5 * 5 ∧ active_point 5 100 12 = Tag.center ∧
      dist2 (30, 40) (test_point 5 100 12) < 998001) ∧
    (active_point 5 100
        (find_nearest_test_point 5 (active_point 5 100) (test_point 5 100) (30, 40)) =
        Tag.active ∨
      active_point 5 100
        (find_nearest_test_point 5 (active_point 5 100) (test_point 5 100) (30, 40)) =
        Tag.center) := by
  have hc : active_point 5 100 12 = Tag.center := by
    rw [active_point_eq 5 100 (by decide) (by decide) (by norm_num) 12]
    rw [if_pos (by decide : 12 = center_idx 5)]
  have hd : dist2 (30, 40) (test_point 5 100 12) < (998001 : ℚ) := by
    norm_num [dist2, test_point, test_point_x, test_point_y, point_spacing]
  exact ⟨⟨by decide, hc, hd⟩,
    (C9_amended 5 100 (30, 40) 12 (by decide) (Or.inr hc) hd).1⟩

end CDS
